import Mathlib

/-!
Verification of the InsightBoard dependency-engine backend.

Shallow embedding of the task-validation pipeline:
sanitization (`ValidationService.validateTasks`), cycle detection
(`GraphService.detectCycles`), status resolution
(`GraphService.determineTaskStatus` and the job-processor pipeline),
the submit route and the task-completion route.
-/

set_option maxHeartbeats 1000000

namespace InsightBoard

/-- Task priority enumeration: "low" | "medium" | "high". -/
inductive Priority
  | low
  | medium
  | high
deriving DecidableEq, Repr

/-- Task status enumeration: "pending" | "ready" | "blocked" | "error". -/
inductive Status
  | pending
  | ready
  | blocked
  | error
deriving DecidableEq, Repr

/-- ValidatedTask from src/backend/src/types/index.ts. -/
structure ValidatedTask where
  id : String
  description : String
  priority : Priority
  dependencies : List String
  status : Status
deriving DecidableEq, Repr

/-- CycleDetectionResult from src/backend/src/types/index.ts. -/
structure CycleDetectionResult where
  hasCycle : Bool
  cycles : List (List String)
  errorTaskIds : List String
deriving DecidableEq, Repr

/-- Untyped JSON-like values: the `unknown[]` input of `validateTasks`. -/
inductive JsonVal
  | null
  | bool (b : Bool)
  | num (n : Int)
  | str (s : String)
  | arr (elems : List JsonVal)
  | obj (fields : List (String × JsonVal))

/-- JS `String.prototype.trim`, modelled structurally on the character
list (strip leading and trailing whitespace) so that it evaluates inside
the kernel. -/
def strTrim (s : String) : String :=
  ⟨((s.data.dropWhile Char.isWhitespace).reverse.dropWhile
      Char.isWhitespace).reverse⟩

/-- Field access `t.key` on an object value (assoc-list lookup). -/
def jsonGet (fields : List (String × JsonVal)) (key : String) : Option JsonVal :=
  (fields.find? (fun p => p.1 == key)).map (fun p => p.2)

/-- The closed priority enumeration check of `validateTaskSchema`:
`["low", "medium", "high"].includes(priority)`. -/
def parsePriority (s : String) : Option Priority :=
  if s = "low" then some Priority.low
  else if s = "medium" then some Priority.medium
  else if s = "high" then some Priority.high
  else none

/-- `t.dependencies.filter(dep => typeof dep === "string" && dep.trim() !== "")`. -/
def filterDeps (deps : List JsonVal) : List String :=
  deps.filterMap fun v =>
    match v with
    | JsonVal.str s => if strTrim s = "" then none else some s
    | _ => none

/-- ValidationService.validateTaskSchema
(src/backend/src/services/validation.service.ts, lines 65-102). -/
def validateTaskSchema (task : JsonVal) : Option ValidatedTask :=
  match task with
  | JsonVal.obj fields =>
    match jsonGet fields "id" with
    | some (JsonVal.str idv) =>
      if strTrim idv = "" then none
      else
        match jsonGet fields "description" with
        | some (JsonVal.str desc) =>
          if strTrim desc = "" then none
          else
            match jsonGet fields "priority" with
            | some (JsonVal.str p) =>
              match parsePriority p with
              | some priority =>
                match jsonGet fields "dependencies" with
                | some (JsonVal.arr deps) =>
                  some { id := strTrim idv
                         description := strTrim desc
                         priority := priority
                         dependencies := filterDeps deps
                         status := Status.pending }
                | _ => none
              | none => none
            | _ => none
        | _ => none
    | _ => none
  | _ => none

/-- First pass of `validateTasks`: validate schema, collect valid task ids,
record duplicate ids.  Accumulators mirror `validated`, `validTaskIds`
and `duplicateIds` of the source loop. -/
def firstPass (tasks : List JsonVal) (validated : List ValidatedTask)
    (validIds dupIds : List String) :
    List ValidatedTask × List String × List String :=
  match tasks with
  | [] => (validated, validIds, dupIds)
  | task :: rest =>
    match validateTaskSchema task with
    | none => firstPass rest validated validIds dupIds
    | some vt =>
      if vt.id ∈ validIds then
        firstPass rest validated validIds (dupIds ++ [vt.id])
      else
        firstPass rest (validated ++ [vt]) (validIds ++ [vt.id]) dupIds

/-- Insertion-order set build: an element is appended the first time it
is seen and skipped afterwards. -/
def dedupFirstAux (seen : List String) : List String → List String
  | [] => []
  | x :: xs =>
    if x ∈ seen then dedupFirstAux seen xs
    else x :: dedupFirstAux (seen ++ [x]) xs

/-- `Array.from(new Set(duplicateIds))`: deduplicate keeping first
occurrences in insertion order. -/
def dedupFirst (l : List String) : List String :=
  dedupFirstAux [] l

/-- The duplicate-id error message of `validateTasks`. -/
def dupMsg (ids : List String) : String :=
  "Validation failed: duplicate task IDs detected: " ++ String.intercalate ", " ids

/-- Second pass of `validateTasks`: filter each task's dependencies to
ids in `validIds`, counting removed entries. -/
def secondPass (validIds : List String) :
    List ValidatedTask → List ValidatedTask × Nat
  | [] => ([], 0)
  | t :: rest =>
    let deps := t.dependencies.filter (fun d => d ∈ validIds)
    let r := secondPass validIds rest
    ({ t with dependencies := deps } :: r.1,
      (t.dependencies.length - deps.length) + r.2)

deriving instance DecidableEq for Except

/-- ValidationService.validateTasks
(src/backend/src/services/validation.service.ts, lines 12-59).
`Except.error` models the thrown duplicate-id `Error`. -/
def validateTasks (tasks : List JsonVal) :
    Except String (List ValidatedTask × Nat) :=
  let fp := firstPass tasks [] [] []
  let validated := fp.1
  let validIds := fp.2.1
  let dupIds := fp.2.2
  if dupIds = [] then
    Except.ok (secondPass validIds validated)
  else
    Except.error (dupMsg (dedupFirst dupIds))

/-- `graph.get(k)` on the adjacency `Map` (assoc list, insertion order). -/
def mapGet (g : List (String × List String)) (k : String) : Option (List String) :=
  (g.find? (fun p => p.1 == k)).map (fun p => p.2)

/-- `graph.set(k, v)`: update in place when present, append otherwise. -/
def mapSet (g : List (String × List String)) (k : String) (v : List String) :
    List (String × List String) :=
  match g with
  | [] => [(k, v)]
  | p :: rest => if p.1 == k then (k, v) :: rest else p :: mapSet rest k v

/-- Inner loop of the adjacency build: push each dependency of the task
onto `graph.get(task.id)` unless already included. -/
def addDeps (g : List (String × List String)) (id : String) :
    List String → List (String × List String)
  | [] => g
  | dep :: rest =>
    let cur := (mapGet g id).getD []
    addDeps (if dep ∈ cur then g else mapSet g id (cur ++ [dep])) id rest

/-- Outer loop of the adjacency build: ensure the key exists
(`Map.set` appends new keys in insertion order), then add the edges. -/
def buildGraphAux (g : List (String × List String)) :
    List ValidatedTask → List (String × List String)
  | [] => g
  | t :: rest =>
    buildGraphAux
      (addDeps (if (mapGet g t.id).isSome then g else g ++ [(t.id, [])])
        t.id t.dependencies)
      rest

/-- Adjacency-list construction of `GraphService.detectCycles`
(src/backend/src/services/validation.service.ts, lines 120-133). -/
def buildGraph (tasks : List ValidatedTask) : List (String × List String) :=
  buildGraphAux [] tasks

/-- Mutable state of the DFS: `visited`, `visiting`, `cycles`,
`errorTaskIds` (sets modelled as insertion-ordered duplicate-free lists). -/
structure DfsState where
  visited : List String
  visiting : List String
  cycles : List (List String)
  errorIds : List String
deriving DecidableEq, Repr

/-- `Set.add`: append unless already a member. -/
def addIfNew (l : List String) (x : String) : List String :=
  if x ∈ l then l else l ++ [x]

/-- The cycle-extraction branch of `dfs`: `path.slice(cycleStart).concat(nodeId)`
is recorded and all its ids are added to `errorTaskIds`; nothing happens when
`indexOf` returns -1. -/
def recordCycle (nodeId : String) (path : List String) (st : DfsState) : DfsState :=
  if nodeId ∈ path then
    let cycle := path.drop (path.indexOf nodeId) ++ [nodeId]
    { st with
      cycles := st.cycles ++ [cycle]
      errorIds := cycle.foldl addIfNew st.errorIds }
  else st

/-- The recursive `dfs` closure of `GraphService.detectCycles`
(src/backend/src/services/validation.service.ts, lines 140-166), with an
explicit fuel bound standing for the implicit call stack; `none` means the
fuel ran out (shown below never to happen for the fuel used).  The
`for (const neighbor of neighbors)` loop is the fold; each iteration
receives a fresh copy of the caller's path (`[...path]`). -/
def dfs (g : List (String × List String)) :
    Nat → String → List String → DfsState → Option DfsState
  | 0, _, _, _ => none
  | Nat.succ fuel, nodeId, path, st =>
    if nodeId ∈ st.visiting then
      some (recordCycle nodeId path st)
    else if nodeId ∈ st.visited then
      some st
    else
      match ((mapGet g nodeId).getD []).foldl
          (fun acc n => Option.bind acc (fun st1 => dfs g fuel n (path ++ [nodeId]) st1))
          (some { st with visiting := st.visiting ++ [nodeId] }) with
      | none => none
      | some st2 =>
        some { st2 with
               visiting := st2.visiting.erase nodeId
               visited := st2.visited ++ [nodeId] }

/-- The neighbor loop of `dfs` in sequential form (equal to the fold, see
`dfs_succ`). -/
def dfsList (g : List (String × List String)) (fuel : Nat) :
    List String → List String → DfsState → Option DfsState
  | [], _, st => some st
  | n :: ns, path, st =>
    match dfs g fuel n path st with
    | none => none
    | some st2 => dfsList g fuel ns path st2

/-- The id universe every `dfs` argument lives in: graph keys plus all
adjacency entries.  Its length bounds the recursion depth. -/
def universeIds (g : List (String × List String)) : List String :=
  g.map (fun p => p.1) ++ (g.map (fun p => p.2)).flatten

/-- The root loop of `detectCycles`: run `dfs` from every graph key not
yet visited. -/
def runRoots (g : List (String × List String)) (fuel : Nat) :
    List String → DfsState → Option DfsState
  | [], st => some st
  | r :: rs, st =>
    if r ∈ st.visited then runRoots g fuel rs st
    else
      match dfs g fuel r [] st with
      | none => none
      | some st2 => runRoots g fuel rs st2

/-- GraphService.detectCycles
(src/backend/src/services/validation.service.ts, lines 119-180).
`none` would mean fuel exhaustion; totality is proved below. -/
def detectCycles (tasks : List ValidatedTask) : Option CycleDetectionResult :=
  match runRoots (buildGraph tasks)
      ((universeIds (buildGraph tasks)).length + 1)
      ((buildGraph tasks).map (fun p => p.1)) ⟨[], [], [], []⟩ with
  | none => none
  | some st =>
    some { hasCycle := !st.cycles.isEmpty
           cycles := st.cycles
           errorTaskIds := st.errorIds }

/-- GraphService.markCyclicTasksAsError
(src/backend/src/services/validation.service.ts, lines 185-195). -/
def markCyclicTasksAsError (tasks : List ValidatedTask)
    (cd : CycleDetectionResult) : List ValidatedTask :=
  tasks.map fun t =>
    { t with status := if t.id ∈ cd.errorTaskIds then Status.error else t.status }

/-- GraphService.determineTaskStatus
(src/backend/src/services/validation.service.ts, lines 203-218). -/
def determineTaskStatus (t : ValidatedTask) (allTaskIds : List String) : Status :=
  if t.status = Status.error then Status.error
  else if t.dependencies.length = 0 then Status.ready
  else if t.dependencies.all (fun d => d ∈ allTaskIds) then Status.blocked
  else Status.ready

/-- Steps 4-5 of JobProcessorService.processTranscript: mark cyclic tasks
as error, then resolve every non-error task's status against the id set
of the processed tasks. -/
def finalizeTasks (tasks : List ValidatedTask) (cd : CycleDetectionResult) :
    List ValidatedTask :=
  (markCyclicTasksAsError tasks cd).map fun t =>
    if t.status = Status.error then t
    else { t with status := determineTaskStatus t ((markCyclicTasksAsError tasks cd).map (fun t2 => t2.id)) }

/-- Job status: "processing" | "done" | "error". -/
inductive JobStatus
  | processing
  | done
  | error
deriving DecidableEq, Repr

/-- Sanitization counters of ProcessingResult. -/
structure SanitizationReport where
  invalidDependenciesRemoved : Nat
  tasksMarkedAsError : Nat
deriving DecidableEq, Repr

/-- ProcessingResult from src/backend/src/types/index.ts. -/
structure ProcessingResult where
  tasks : List ValidatedTask
  circularDependencies : List (List String)
  sanitizationReport : SanitizationReport
deriving DecidableEq, Repr

/-- The persisted job record (status/result/error fields of the Job
document; `failJob` and `completeJob` each $set only their own fields). -/
structure JobRec where
  status : JobStatus
  result : Option ProcessingResult
  errorMessage : Option String
deriving DecidableEq, Repr

/-- A freshly created job: `createJob` stores `status: processing`
with no result and no error message. -/
def freshJob : JobRec :=
  { status := JobStatus.processing, result := none, errorMessage := none }

/-- Outcomes of the external calls made by one `processTranscript` run:
the LLM response and the results of the three store writes.  `Except.error`
carries the message of the rejection the call would throw. -/
structure World where
  llmResult : Except String (List JsonVal)
  saveTasksResult : Except String Unit
  completeJobResult : Except String Unit
  failJobResult : Except String Unit

/-- The try-block of JobProcessorService.processTranscript up to building
the ProcessingResult (src/unnamed/part_008, lines 24-73): LLM call,
sanitization, empty-check, cycle detection, status resolution. -/
def tryPipeline (w : World) : Except String ProcessingResult :=
  match w.llmResult with
  | Except.error e => Except.error e
  | Except.ok llmOutput =>
    match validateTasks llmOutput with
    | Except.error e => Except.error e
    | Except.ok (sanitizedTasks, invalidDependenciesRemoved) =>
      if sanitizedTasks.length = 0 then
        Except.error "No valid tasks extracted from transcript"
      else
        let cycleResult := (detectCycles sanitizedTasks).getD ⟨false, [], []⟩
        let finalTasks := finalizeTasks sanitizedTasks cycleResult
        Except.ok
          { tasks := finalTasks
            circularDependencies := cycleResult.cycles
            sanitizationReport :=
              { invalidDependenciesRemoved := invalidDependenciesRemoved
                tasksMarkedAsError := cycleResult.errorTaskIds.length } }

/-- JobProcessorService.processTranscript (src/unnamed/part_008,
lines 23-89).  Returns the promise outcome (`Except.error` = the promise
rejects with that message) and the job record after the run.  The catch
block awaits `failJob`; a rejection of that very call is not caught. -/
def processTranscript (w : World) (job : JobRec) : Except String Unit × JobRec :=
  let attempt : Except String JobRec :=
    match tryPipeline w with
    | Except.error e => Except.error e
    | Except.ok result =>
      match w.saveTasksResult with
      | Except.error e => Except.error e
      | Except.ok _ =>
        match w.completeJobResult with
        | Except.error e => Except.error e
        | Except.ok _ =>
          Except.ok { job with status := JobStatus.done, result := some result }
  match attempt with
  | Except.ok job2 => (Except.ok (), job2)
  | Except.error msg =>
    match w.failJobResult with
    | Except.ok _ =>
      (Except.ok (), { job with status := JobStatus.error, errorMessage := some msg })
    | Except.error e => (Except.error e, job)

/-- HTTP responses of POST /api/submit (src/unnamed/part_006, lines 47-97). -/
inductive SubmitResponse
  | badRequest
  | alreadySubmitted (jobId : String)
  | accepted (jobId : String)
  | serverError
deriving DecidableEq, Repr

/-- Observable outcome of one submit call: the response, whether a job
record was created, and how many background processing runs (hence model
calls) were started. -/
structure SubmitOutcome where
  response : SubmitResponse
  created : Bool
  modelCalls : Nat
deriving DecidableEq, Repr

/-- The POST /api/submit handler (src/unnamed/part_006, lines 47-97) with
the two store operations as oracles: `findResult` is what
`findExistingJob(cleanTranscript)` returns, `createResult` the outcome of
`createJob` (a uniqueness-constraint violation rejects).  A rejection
inside the handler is caught and answered with a 500. -/
def submitCore (transcript : String) (findResult : Option String)
    (createResult : Except String Unit) (freshId : String) : SubmitOutcome :=
  if strTrim transcript = "" then ⟨SubmitResponse.badRequest, false, 0⟩
  else
    match findResult with
    | some existingJobId => ⟨SubmitResponse.alreadySubmitted existingJobId, false, 0⟩
    | none =>
      match createResult with
      | Except.error _ => ⟨SubmitResponse.serverError, false, 0⟩
      | Except.ok _ => ⟨SubmitResponse.accepted freshId, true, 1⟩

/-- Sequential-store view of the submit route: the store maps content
hashes to job ids (`DatabaseService.hashTranscript` applied to the trimmed
transcript, modelled by the deterministic digest function `H`), the lookup
is computed from the store, and a successful create appends to it. -/
def submitStore (H : String → String) (store : List (String × String))
    (freshId transcript : String) : SubmitOutcome × List (String × String) :=
  let clean := strTrim transcript
  let findResult := (store.find? (fun p => p.1 == H clean)).map (fun p => p.2)
  let out := submitCore transcript findResult (Except.ok ()) freshId
  (out, if out.created then store ++ [(H clean, freshId)] else store)

/-- A task as stored inside `job.result.tasks` (schema type Mixed): the
status is a plain string, which is how `setTaskCompletion` can write the
value "completed" that is outside the ValidatedTask enumeration. -/
structure StoredTask where
  id : String
  status : String
  completed : Option Bool
deriving DecidableEq, Repr

/-- The persisted job as seen by `setTaskCompletion`: only `result.tasks`
is read or written. -/
structure StoredJob where
  result : Option (List StoredTask)
deriving DecidableEq, Repr

/-- The in-place mutation of the first task matching `taskId`:
`t.completed = completed; t.status = completed ? "completed" : "ready"`. -/
def updateFirstTask (tasks : List StoredTask) (taskId : String)
    (completed : Bool) : List StoredTask :=
  match tasks with
  | [] => []
  | t :: rest =>
    if t.id == taskId then
      { t with
        completed := some completed
        status := if completed then "completed" else "ready" } :: rest
    else t :: updateFirstTask rest taskId completed

/-- DatabaseService.setTaskCompletion (src/unnamed/part_006, lines 302-324),
the store operation behind PATCH /api/status/:jobId/task/:taskId.  Returns
the updated result (`none` = job/task not found, a 404) and the job record
after the call. -/
def setTaskCompletion (job : Option StoredJob) (taskId : String)
    (completed : Bool) : Option (List StoredTask) × Option StoredJob :=
  match job with
  | none => (none, none)
  | some j =>
    match j.result with
    | none => (none, some j)
    | some tasks =>
      match tasks.find? (fun t => t.id == taskId) with
      | none => (none, some j)
      | some _ =>
        let tasks2 := updateFirstTask tasks taskId completed
        (some tasks2, some { j with result := some tasks2 })

/-- One dependency edge of a task list: `v` is listed in the dependencies
of a task whose id is `u`. -/
def taskEdge (tasks : List ValidatedTask) (u v : String) : Prop :=
  ∃ t ∈ tasks, t.id = u ∧ v ∈ t.dependencies

/-- The dependency list of the task with id `u` (first match, the task
when ids are duplicate-free). -/
def depsOfId (tasks : List ValidatedTask) (u : String) : List String :=
  ((tasks.find? (fun t => t.id == u)).map (fun t => t.dependencies)).getD []

/-- Edge relation of the built adjacency list. -/
def graphEdge (g : List (String × List String)) (u v : String) : Prop :=
  v ∈ (mapGet g u).getD []

/-- A closed walk: at least two entries, first equals last, and every
consecutive pair is an edge. -/
def IsClosedWalk (E : String → String → Prop) (c : List String) : Prop :=
  2 ≤ c.length ∧ c.head? = c.getLast? ∧ List.Chain' E c

/-- Acyclicity of a task list's dependency graph: no closed walk. -/
def Acyclic (tasks : List ValidatedTask) : Prop :=
  ¬ ∃ c, IsClosedWalk (taskEdge tasks) c

/-- Soundness invariant of the DFS state: every recorded cycle is a
closed walk whose ids are all in `errorIds`, and every id in `errorIds`
comes from some recorded cycle. -/
def GoodSt (g : List (String × List String)) (st : DfsState) : Prop :=
  (∀ c ∈ st.cycles, IsClosedWalk (graphEdge g) c ∧ ∀ x ∈ c, x ∈ st.errorIds) ∧
  (∀ x ∈ st.errorIds, ∃ c ∈ st.cycles, x ∈ c)

/-- The ids of the schema-valid records of an input batch, in order and
with multiplicity. -/
def schemaIds (raw : List JsonVal) : List String :=
  (raw.filterMap validateTaskSchema).map (fun t => t.id)

/-! Lemmas about the sanitizer. -/

theorem validateTaskSchema_status (task : JsonVal) (vt : ValidatedTask)
    (h : validateTaskSchema task = some vt) : vt.status = Status.pending := by
  unfold validateTaskSchema at h
  repeat' split at h
  all_goals simp_all
  all_goals (cases h; rfl)

theorem firstPass_validIds (tasks : List JsonVal) :
    ∀ v ids d, ids = v.map (fun t => t.id) →
      (firstPass tasks v ids d).2.1 = (firstPass tasks v ids d).1.map (fun t => t.id) := by
  induction tasks with
  | nil => intro v ids d h; simpa [firstPass] using h
  | cons task rest ih =>
    intro v ids d h
    unfold firstPass
    cases hs : validateTaskSchema task with
    | none => exact ih v ids d h
    | some vt =>
      simp only
      split
      · exact ih v ids (d ++ [vt.id]) h
      · exact ih (v ++ [vt]) (ids ++ [vt.id]) d (by simp [h])

theorem firstPass_status (tasks : List JsonVal) :
    ∀ v ids d t, t ∈ (firstPass tasks v ids d).1 →
      t ∈ v ∨ t.status = Status.pending := by
  induction tasks with
  | nil => intro v ids d t h; exact Or.inl (by simpa [firstPass] using h)
  | cons task rest ih =>
    intro v ids d t h
    unfold firstPass at h
    cases hs : validateTaskSchema task with
    | none => rw [hs] at h; exact ih v ids d t h
    | some vt =>
      rw [hs] at h
      simp only at h
      split at h
      · exact ih v ids (d ++ [vt.id]) t h
      · rcases ih (v ++ [vt]) (ids ++ [vt.id]) d t h with hm | hp
        · rcases List.mem_append.mp hm with hv | hone
          · exact Or.inl hv
          · right
            have : t = vt := by simpa using hone
            subst this
            exact validateTaskSchema_status task t hs
        · exact Or.inr hp

theorem firstPass_dupIds (tasks : List JsonVal) :
    ∀ v ids d x, x ∈ (firstPass tasks v ids d).2.2 →
      x ∈ d ∨ 2 ≤ (ids ++ schemaIds tasks).count x := by
  induction tasks with
  | nil => intro v ids d x h; exact Or.inl (by simpa [firstPass] using h)
  | cons task rest ih =>
    intro v ids d x h
    unfold firstPass at h
    cases hs : validateTaskSchema task with
    | none =>
      rw [hs] at h
      rcases ih v ids d x h with hd | hc
      · exact Or.inl hd
      · right
        simpa [schemaIds, List.filterMap_cons, hs] using hc
    | some vt =>
      rw [hs] at h
      simp only at h
      split at h
      next hin =>
        rcases ih v ids (d ++ [vt.id]) x h with hd | hc
        · rcases List.mem_append.mp hd with hd1 | hone
          · exact Or.inl hd1
          · right
            have hx : x = vt.id := by simpa using hone
            rw [hx]
            have h1 : 0 < ids.count vt.id := List.count_pos_iff.mpr hin
            have h2 : (schemaIds (task :: rest)).count vt.id =
                (schemaIds rest).count vt.id + 1 := by
              simp [schemaIds, List.filterMap_cons, hs, List.count_cons]
            rw [List.count_append, h2]
            omega
        · right
          have h2 : (ids ++ schemaIds rest).count x ≤
              (ids ++ schemaIds (task :: rest)).count x := by
            simp only [List.count_append, schemaIds, List.filterMap_cons, hs,
              List.map_cons, List.count_cons]
            split <;> omega
          omega
      next hnin =>
        rcases ih (v ++ [vt]) (ids ++ [vt.id]) d x h with hd | hc
        · exact Or.inl hd
        · right
          rw [List.count_append, List.count_append] at hc
          have h2 : (schemaIds (task :: rest)).count x =
              (List.count x [vt.id]) + (schemaIds rest).count x := by
            simp only [schemaIds, List.filterMap_cons, hs, List.map_cons,
              List.count_cons, List.count_nil]
            split <;> omega
          rw [List.count_append, h2]
          omega

theorem secondPass_fst (ids : List String) (ts : List ValidatedTask) :
    (secondPass ids ts).1 =
      ts.map (fun t =>
        { t with dependencies := t.dependencies.filter (fun d => d ∈ ids) }) := by
  induction ts with
  | nil => simp [secondPass]
  | cons t rest ih => simp [secondPass, ih]

theorem dedupFirstAux_subset (l : List String) :
    ∀ seen x, x ∈ dedupFirstAux seen l → x ∈ l := by
  induction l with
  | nil =>
    intro seen x h
    simp [dedupFirstAux] at h
  | cons a as ih =>
    intro seen x h
    rw [dedupFirstAux] at h
    split at h
    · exact List.mem_cons_of_mem a (ih seen x h)
    · rcases List.mem_cons.mp h with h1 | h1
      · simp [h1]
      · exact List.mem_cons_of_mem a (ih (seen ++ [a]) x h1)

theorem dedupFirst_subset : ∀ l x, x ∈ dedupFirst l → x ∈ l :=
  fun l x h => dedupFirstAux_subset l [] x h

theorem dedupFirst_ne_nil (l : List String) (h : l ≠ []) : dedupFirst l ≠ [] := by
  cases l with
  | nil => exact absurd rfl h
  | cons a as => simp [dedupFirst, dedupFirstAux]

/-- C1: `validateTasks` either returns a task sequence with no dangling
dependency reference (every dependency entry is the id of some returned
task), or fails with the duplicate-id error message naming the colliding
ids (ids occurring at least twice among the schema-valid records); no
other error shape exists. -/
theorem C1_sanitization_totality (raw : List JsonVal) :
    (∀ ts n, validateTasks raw = Except.ok (ts, n) →
      ∀ t ∈ ts, ∀ d ∈ t.dependencies, ∃ t2 ∈ ts, t2.id = d) ∧
    (∀ msg, validateTasks raw = Except.error msg →
      ∃ dups, dups ≠ [] ∧ msg = dupMsg dups ∧
        ∀ x ∈ dups, 2 ≤ (schemaIds raw).count x) := by
  have hids : (firstPass raw [] [] []).2.1 =
      (firstPass raw [] [] []).1.map (fun t => t.id) :=
    firstPass_validIds raw [] [] [] rfl
  constructor
  · intro ts n h t ht d hd
    unfold validateTasks at h
    simp only at h
    split at h
    · have hts : ts = (secondPass (firstPass raw [] [] []).2.1
          (firstPass raw [] [] []).1).1 := by
        have := congrArg (fun e =>
          match e with
          | Except.ok (p : List ValidatedTask × Nat) => p.1
          | Except.error _ => []) h
        simpa using this.symm
      rw [hts, secondPass_fst] at ht
      rcases List.mem_map.mp ht with ⟨t0, ht0, rfl⟩
      simp only at hd
      have hdmem : d ∈ (firstPass raw [] [] []).2.1 :=
        of_decide_eq_true (List.mem_filter.mp hd).2
      rw [hids] at hdmem
      rcases List.mem_map.mp hdmem with ⟨t1, ht1, hid1⟩
      refine ⟨{ t1 with dependencies :=
        t1.dependencies.filter (fun d2 => d2 ∈ (firstPass raw [] [] []).2.1) },
        ?_, hid1⟩
      rw [hts, secondPass_fst]
      exact List.mem_map.mpr ⟨t1, ht1, rfl⟩
    · exact absurd h (by simp)
  · intro msg h
    unfold validateTasks at h
    simp only at h
    split at h
    · exact absurd h (by simp)
    next hne =>
      refine ⟨dedupFirst (firstPass raw [] [] []).2.2, ?_, ?_, ?_⟩
      · exact dedupFirst_ne_nil _ hne
      · have := congrArg (fun e =>
          match e with
          | Except.ok (_ : List ValidatedTask × Nat) => ""
          | Except.error m => m) h
        simpa using this.symm
      · intro x hx
        have hxd := dedupFirst_subset _ x hx
        rcases firstPass_dupIds raw [] [] [] x hxd with h0 | hc
        · simp at h0
        · simpa using hc

/-- Witness for C1: on `[a, b [dep a]]` sanitization returns a set
containing the referenced id, and on two records both with id "t1" it
fails naming "t1". -/
theorem C1_sanitization_totality_witness :
    (∃ t2 ∈ [{ id := "a", description := "A", priority := Priority.low,
               dependencies := [], status := Status.pending },
              { id := "b", description := "B", priority := Priority.low,
                dependencies := ["a"], status := Status.pending }],
       ValidatedTask.id t2 = "a") ∧
    (∃ dups, dups ≠ [] ∧ dupMsg ["t1"] = dupMsg dups ∧
      ∀ x ∈ dups, 2 ≤ (schemaIds
        [JsonVal.obj [("id", JsonVal.str "t1"), ("description", JsonVal.str "A"),
           ("priority", JsonVal.str "low"), ("dependencies", JsonVal.arr [])],
         JsonVal.obj [("id", JsonVal.str "t1"), ("description", JsonVal.str "B"),
           ("priority", JsonVal.str "low"), ("dependencies", JsonVal.arr [])]]).count x) := by
  constructor
  · exact (C1_sanitization_totality
      [JsonVal.obj [("id", JsonVal.str "a"), ("description", JsonVal.str "A"),
         ("priority", JsonVal.str "low"), ("dependencies", JsonVal.arr [])],
       JsonVal.obj [("id", JsonVal.str "b"), ("description", JsonVal.str "B"),
         ("priority", JsonVal.str "low"),
         ("dependencies", JsonVal.arr [JsonVal.str "a"])]]).1
      [{ id := "a", description := "A", priority := Priority.low,
          dependencies := [], status := Status.pending },
       { id := "b", description := "B", priority := Priority.low,
          dependencies := ["a"], status := Status.pending }] 0 (by decide)
      { id := "b", description := "B", priority := Priority.low,
        dependencies := ["a"], status := Status.pending }
      (by simp) "a" (by simp)
  · exact (C1_sanitization_totality
      [JsonVal.obj [("id", JsonVal.str "t1"), ("description", JsonVal.str "A"),
         ("priority", JsonVal.str "low"), ("dependencies", JsonVal.arr [])],
       JsonVal.obj [("id", JsonVal.str "t1"), ("description", JsonVal.str "B"),
         ("priority", JsonVal.str "low"),
         ("dependencies", JsonVal.arr [])]]).2 (dupMsg ["t1"]) (by decide)

/-- C10: the sanitizer trims ids but not dependency entries, so the
dependency " a " of task "b" is dropped as dangling and counted, although
the task with id "a" is in the returned set. -/
theorem C10_untrimmed_dependency_dropped :
    validateTasks
      [JsonVal.obj [("id", JsonVal.str "a"), ("description", JsonVal.str "A"),
         ("priority", JsonVal.str "low"), ("dependencies", JsonVal.arr [])],
       JsonVal.obj [("id", JsonVal.str "b"), ("description", JsonVal.str "B"),
         ("priority", JsonVal.str "low"),
         ("dependencies", JsonVal.arr [JsonVal.str " a "])]] =
      Except.ok
        ([{ id := "a", description := "A", priority := Priority.low,
            dependencies := [], status := Status.pending },
          { id := "b", description := "B", priority := Priority.low,
            dependencies := [], status := Status.pending }], 1) ∧
    strTrim " a " = "a" := by
  constructor
  · decide
  · decide

/-! Lemmas about the adjacency list and the DFS. -/

theorem foldl_bind_none (g : List (String × List String)) (fuel : Nat)
    (path : List String) (ns : List String) :
    ns.foldl (fun acc n => Option.bind acc (fun st1 => dfs g fuel n path st1))
      none = none := by
  induction ns with
  | nil => rfl
  | cons n rest ih => simpa using ih

theorem foldl_bind_eq_dfsList (g : List (String × List String)) (fuel : Nat)
    (path : List String) :
    ∀ ns st, ns.foldl
        (fun acc n => Option.bind acc (fun st1 => dfs g fuel n path st1))
        (some st) = dfsList g fuel ns path st := by
  intro ns
  induction ns with
  | nil => intro st; rfl
  | cons n rest ih =>
    intro st
    rw [List.foldl_cons, dfsList]
    simp only [Option.some_bind]
    cases h : dfs g fuel n path st with
    | none => rw [foldl_bind_none]
    | some st2 => exact ih st2

theorem dfs_succ (g : List (String × List String)) (fuel : Nat)
    (nodeId : String) (path : List String) (st : DfsState) :
    dfs g (fuel + 1) nodeId path st =
      if nodeId ∈ st.visiting then some (recordCycle nodeId path st)
      else if nodeId ∈ st.visited then some st
      else
        match dfsList g fuel ((mapGet g nodeId).getD []) (path ++ [nodeId])
            { st with visiting := st.visiting ++ [nodeId] } with
        | none => none
        | some st2 =>
          some { st2 with
                 visiting := st2.visiting.erase nodeId
                 visited := st2.visited ++ [nodeId] } := by
  rw [dfs, foldl_bind_eq_dfsList]

theorem mapGet_cons (p : String × List String)
    (rest : List (String × List String)) (k2 : String) :
    mapGet (p :: rest) k2 = if p.1 = k2 then some p.2 else mapGet rest k2 := by
  unfold mapGet
  by_cases h : p.1 = k2
  · rw [List.find?_cons_of_pos _ (by simp [h]), if_pos h]
    rfl
  · rw [List.find?_cons_of_neg _ (by simp [h]), if_neg h]

theorem mapGet_mapSet (g : List (String × List String)) (k k2 : String)
    (v : List String) :
    mapGet (mapSet g k v) k2 = if k2 = k then some v else mapGet g k2 := by
  induction g with
  | nil =>
    show mapGet [(k, v)] k2 = _
    rw [mapGet_cons]
    by_cases h : k2 = k
    · rw [if_pos (h.symm), if_pos h]
    · rw [if_neg (fun e => h e.symm), if_neg h]
  | cons p rest ih =>
    unfold mapSet
    by_cases hp : p.1 = k
    · rw [if_pos (by simp [hp]), mapGet_cons, mapGet_cons]
      by_cases h2 : k2 = k
      · rw [if_pos h2.symm, if_pos h2]
      · rw [if_neg (fun e => h2 e.symm), if_neg h2,
          if_neg (fun e => h2 (hp ▸ e).symm)]
    · rw [if_neg (by simp [hp]), mapGet_cons, mapGet_cons]
      by_cases h3 : p.1 = k2
      · rw [if_pos h3, if_neg (fun e => hp (h3.trans e)), if_pos h3]
      · rw [if_neg h3, if_neg h3, ih]

theorem mapGet_append (g g2 : List (String × List String)) (k2 : String) :
    mapGet (g ++ g2) k2 = (mapGet g k2).or (mapGet g2 k2) := by
  unfold mapGet
  rw [List.find?_append]
  cases List.find? (fun p => p.1 == k2) g <;> simp

theorem addDeps_mapGet_ne (deps : List String) :
    ∀ g id u, u ≠ id → mapGet (addDeps g id deps) u = mapGet g u := by
  induction deps with
  | nil => intro g id u _; rfl
  | cons dep rest ih =>
    intro g id u hne
    rw [addDeps]
    by_cases hd : dep ∈ (mapGet g id).getD []
    · rw [if_pos hd, ih _ _ _ hne]
    · rw [if_neg hd, ih _ _ _ hne, mapGet_mapSet, if_neg hne]

theorem addDeps_mem (deps : List String) :
    ∀ g id v, v ∈ (mapGet (addDeps g id deps) id).getD [] ↔
      (v ∈ (mapGet g id).getD [] ∨ v ∈ deps) := by
  induction deps with
  | nil => intro g id v; simp [addDeps]
  | cons dep rest ih =>
    intro g id v
    rw [addDeps]
    by_cases hd : dep ∈ (mapGet g id).getD []
    · rw [if_pos hd, ih]
      constructor
      · rintro (h | h)
        · exact Or.inl h
        · exact Or.inr (List.mem_cons_of_mem dep h)
      · rintro (h | h)
        · exact Or.inl h
        · rcases List.mem_cons.mp h with rfl | h2
          · exact Or.inl hd
          · exact Or.inr h2
    · rw [if_neg hd, ih, mapGet_mapSet, if_pos rfl]
      simp only [Option.getD_some, List.mem_append, List.mem_singleton,
        List.mem_cons]
      tauto

theorem buildGraphAux_mem (tasks : List ValidatedTask) :
    ∀ g u v, v ∈ (mapGet (buildGraphAux g tasks) u).getD [] ↔
      (v ∈ (mapGet g u).getD [] ∨ ∃ t ∈ tasks, t.id = u ∧ v ∈ t.dependencies) := by
  induction tasks with
  | nil => intro g u v; simp [buildGraphAux]
  | cons t rest ih =>
    intro g u v
    rw [buildGraphAux, ih]
    have hg1 : ∀ u2, (mapGet (if (mapGet g t.id).isSome then g
        else g ++ [(t.id, [])]) u2).getD [] = (mapGet g u2).getD [] := by
      intro u2
      by_cases hs : (mapGet g t.id).isSome
      · rw [if_pos hs]
      · rw [if_neg hs, mapGet_append]
        cases hg : mapGet g u2 with
        | some l => simp
        | none =>
          simp only [Option.none_or]
          by_cases hu : u2 = t.id
          · subst hu
            rw [mapGet_cons]
            simp [mapGet]
          · rw [mapGet_cons, if_neg (by simpa using fun e => hu e.symm)]
            rfl
    constructor
    · rintro (h | h)
      · by_cases hu : u = t.id
        · subst hu
          rw [addDeps_mem, hg1] at h
          rcases h with h | h
          · exact Or.inl h
          · exact Or.inr ⟨t, List.mem_cons_self t rest, rfl, h⟩
        · rw [addDeps_mapGet_ne _ _ _ _ hu, hg1] at h
          exact Or.inl h
      · rcases h with ⟨t2, ht2, hid, hv⟩
        exact Or.inr ⟨t2, List.mem_cons_of_mem t ht2, hid, hv⟩
    · rintro (h | ⟨t2, ht2, hid, hv⟩)
      · by_cases hu : u = t.id
        · subst hu
          rw [addDeps_mem, hg1]
          exact Or.inl (Or.inl h)
        · rw [addDeps_mapGet_ne _ _ _ _ hu, hg1]
          exact Or.inl h
      · rcases List.mem_cons.mp ht2 with rfl | hrest
        · left
          subst hid
          rw [addDeps_mem]
          exact Or.inr hv
        · exact Or.inr ⟨t2, hrest, hid, hv⟩

theorem buildGraph_edge (tasks : List ValidatedTask) (u v : String) :
    graphEdge (buildGraph tasks) u v ↔ taskEdge tasks u v := by
  unfold graphEdge buildGraph taskEdge
  rw [buildGraphAux_mem]
  simp [mapGet]

theorem adj_subset_universe (g : List (String × List String)) (u : String) :
    ∀ v ∈ (mapGet g u).getD [], v ∈ universeIds g := by
  intro v hv
  cases hm : mapGet g u with
  | none => rw [hm] at hv; cases hv
  | some l =>
    rw [hm] at hv
    simp only [Option.getD_some] at hv
    unfold mapGet at hm
    cases hf : List.find? (fun p => p.1 == u) g with
    | none => rw [hf] at hm; cases hm
    | some p =>
      rw [hf] at hm
      have hpg : p ∈ g := List.mem_of_find?_eq_some hf
      have hl : p.2 = l := by simpa using hm
      unfold universeIds
      refine List.mem_append_right _ ?_
      rw [List.mem_flatten]
      exact ⟨l, by rw [← hl]; exact List.mem_map_of_mem _ hpg, hv⟩

theorem keys_subset_universe (g : List (String × List String)) (u : String)
    (h : u ∈ g.map (fun p => p.1)) : u ∈ universeIds g :=
  List.mem_append_left _ h

theorem recordCycle_visiting (nodeId : String) (path : List String)
    (st : DfsState) : (recordCycle nodeId path st).visiting = st.visiting := by
  unfold recordCycle
  split <;> rfl

theorem card_step (g : List (String × List String)) (visiting : List String)
    (nodeId : String) (hU : nodeId ∈ universeIds g) (hnin : nodeId ∉ visiting) :
    ((universeIds g).toFinset \ (visiting ++ [nodeId]).toFinset).card <
      ((universeIds g).toFinset \ visiting.toFinset).card := by
  have hmem : nodeId ∈ (universeIds g).toFinset \ visiting.toFinset := by
    simp [List.mem_toFinset, hU, hnin]
  have he : (universeIds g).toFinset \ (visiting ++ [nodeId]).toFinset =
      ((universeIds g).toFinset \ visiting.toFinset).erase nodeId := by
    ext x
    simp only [Finset.mem_sdiff, List.toFinset_append, Finset.mem_union,
      Finset.mem_erase, List.mem_toFinset, List.toFinset_cons,
      List.toFinset_nil, insert_emptyc_eq, Finset.mem_insert,
      Finset.not_mem_empty, or_false, Finset.mem_singleton]
    tauto
  rw [he]
  have hpos : 0 < ((universeIds g).toFinset \ visiting.toFinset).card :=
    Finset.card_pos.mpr ⟨nodeId, hmem⟩
  rw [Finset.card_erase_of_mem hmem]
  omega

theorem dfs_total (g : List (String × List String)) : ∀ fuel : Nat,
    (∀ nodeId path st, nodeId ∈ universeIds g →
      ((universeIds g).toFinset \ st.visiting.toFinset).card < fuel →
      ∃ st2, dfs g fuel nodeId path st = some st2 ∧
        st2.visiting = st.visiting) ∧
    (∀ ns path st, (∀ n ∈ ns, n ∈ universeIds g) →
      ((universeIds g).toFinset \ st.visiting.toFinset).card < fuel →
      ∃ st2, dfsList g fuel ns path st = some st2 ∧
        st2.visiting = st.visiting) := by
  intro fuel
  induction fuel with
  | zero =>
    constructor
    · intro _ _ _ _ hc; omega
    · intro _ _ _ _ hc; omega
  | succ fuel ih =>
    have hdfs : ∀ nodeId path st, nodeId ∈ universeIds g →
        ((universeIds g).toFinset \ st.visiting.toFinset).card < fuel + 1 →
        ∃ st2, dfs g (fuel + 1) nodeId path st = some st2 ∧
          st2.visiting = st.visiting := by
      intro nodeId path st hU hcard
      rw [dfs_succ]
      by_cases h1 : nodeId ∈ st.visiting
      · exact ⟨recordCycle nodeId path st, by rw [if_pos h1],
          recordCycle_visiting nodeId path st⟩
      · by_cases h2 : nodeId ∈ st.visited
        · exact ⟨st, by rw [if_neg h1, if_pos h2], rfl⟩
        · have hstep := card_step g st.visiting nodeId hU h1
          have hlt : ((universeIds g).toFinset \
              (st.visiting ++ [nodeId]).toFinset).card < fuel := by omega
          obtain ⟨st2, hrun, hvis⟩ := ih.2 ((mapGet g nodeId).getD [])
            (path ++ [nodeId])
            ⟨st.visited, st.visiting ++ [nodeId], st.cycles, st.errorIds⟩
            (fun n hn => adj_subset_universe g nodeId n hn) hlt
          have hvis2 : st2.visiting = st.visiting ++ [nodeId] := hvis
          refine ⟨⟨st2.visited ++ [nodeId], st2.visiting.erase nodeId,
            st2.cycles, st2.errorIds⟩, ?_, ?_⟩
          · rw [if_neg h1, if_neg h2, hrun]
          · show st2.visiting.erase nodeId = st.visiting
            rw [hvis2, List.erase_append_right _ h1]
            simp
    refine ⟨hdfs, ?_⟩
    intro ns
    induction ns with
    | nil => intro path st _ _; exact ⟨st, rfl, rfl⟩
    | cons n rest ihn =>
      intro path st hU hcard
      obtain ⟨st2, h2, hv2⟩ := hdfs n path st (hU n (List.mem_cons_self n rest))
        hcard
      rw [dfsList, h2]
      obtain ⟨st3, h3, hv3⟩ := ihn path st2
        (fun m hm => hU m (List.mem_cons_of_mem n hm)) (by rw [hv2]; exact hcard)
      exact ⟨st3, h3, hv3.trans hv2⟩

theorem runRoots_total (g : List (String × List String)) (fuel : Nat)
    (hfuel : (universeIds g).toFinset.card < fuel) :
    ∀ roots st, (∀ r ∈ roots, r ∈ universeIds g) → st.visiting = [] →
      ∃ st2, runRoots g fuel roots st = some st2 ∧ st2.visiting = [] := by
  intro roots
  induction roots with
  | nil => intro st _ hv; exact ⟨st, rfl, hv⟩
  | cons r rest ih =>
    intro st hU hv
    rw [runRoots]
    by_cases hvis : r ∈ st.visited
    · rw [if_pos hvis]
      exact ih st (fun m hm => hU m (List.mem_cons_of_mem r hm)) hv
    · obtain ⟨st2, h2, hv2⟩ := (dfs_total g fuel).1 r [] st
        (hU r (List.mem_cons_self r rest)) (by rw [hv]; simpa using hfuel)
      rw [if_neg hvis, h2]
      exact ih st2 (fun m hm => hU m (List.mem_cons_of_mem r hm))
        (hv2.trans hv)

theorem mem_addIfNew (l : List String) (y x : String) :
    x ∈ addIfNew l y ↔ x ∈ l ∨ x = y := by
  unfold addIfNew
  by_cases h : y ∈ l
  · rw [if_pos h]
    constructor
    · exact Or.inl
    · rintro (hx | rfl)
      · exact hx
      · exact h
  · rw [if_neg h]
    simp [List.mem_append]

theorem mem_foldl_addIfNew (c : List String) :
    ∀ init x, x ∈ c.foldl addIfNew init ↔ x ∈ init ∨ x ∈ c := by
  induction c with
  | nil => simp
  | cons a rest ih =>
    intro init x
    rw [List.foldl_cons, ih, mem_addIfNew]
    simp only [List.mem_cons]
    tauto

theorem head?_drop_indexOf (l : List String) (a : String) :
    a ∈ l → (l.drop (l.indexOf a)).head? = some a := by
  induction l with
  | nil => intro h; cases h
  | cons b bs ih =>
    intro h
    by_cases hb : b = a
    · subst hb
      rw [List.indexOf_cons_self]
      rfl
    · have hmem : a ∈ bs := by
        rcases List.mem_cons.mp h with rfl | h2
        · exact absurd rfl hb
        · exact h2
      have hidx : (b :: bs).indexOf a = bs.indexOf a + 1 := by
        simp [List.indexOf_cons, hb]
      rw [hidx, List.drop_succ_cons]
      exact ih hmem

theorem getLast?_drop_of_ne_nil (l : List String) (n : Nat)
    (h : l.drop n ≠ []) : (l.drop n).getLast? = l.getLast? := by
  conv_rhs => rw [← List.take_append_drop n l]
  rw [List.getLast?_append_of_ne_nil _ h]

theorem cycle_closed_walk (g : List (String × List String)) (nodeId : String)
    (path : List String) (hmem : nodeId ∈ path)
    (hchain : List.Chain' (graphEdge g) path)
    (hlast : ∀ l, path.getLast? = some l → graphEdge g l nodeId) :
    IsClosedWalk (graphEdge g) (path.drop (path.indexOf nodeId) ++ [nodeId]) := by
  have hidx : path.indexOf nodeId < path.length :=
    List.indexOf_lt_length.mpr hmem
  have hdropne : path.drop (path.indexOf nodeId) ≠ [] := by
    intro h
    have hlen := congrArg List.length h
    rw [List.length_drop] at hlen
    simp at hlen
    omega
  refine ⟨?_, ?_, ?_⟩
  · rw [List.length_append, List.length_drop]
    simp
    omega
  · rw [List.getLast?_concat, List.head?_append_of_ne_nil _ hdropne,
      head?_drop_indexOf path nodeId hmem]
  · rw [List.chain'_append]
    refine ⟨hchain.suffix (List.drop_suffix _ _),
      List.chain'_singleton nodeId, ?_⟩
    intro x hx y hy
    have hy2 : nodeId = y := by simpa using hy
    subst hy2
    have hgl : path.getLast? = some x := by
      rw [← getLast?_drop_of_ne_nil path (path.indexOf nodeId) hdropne]
      exact hx
    exact hlast x hgl

theorem recordCycle_good (g : List (String × List String)) (nodeId : String)
    (path : List String) (st : DfsState) (hmem : nodeId ∈ path)
    (hchain : List.Chain' (graphEdge g) path)
    (hlast : ∀ l, path.getLast? = some l → graphEdge g l nodeId)
    (hgood : GoodSt g st) : GoodSt g (recordCycle nodeId path st) := by
  unfold recordCycle
  rw [if_pos hmem]
  constructor
  · intro c hc
    rcases List.mem_append.mp hc with hold | hnew
    · obtain ⟨hcw, hin⟩ := hgood.1 c hold
      exact ⟨hcw, fun x hx =>
        (mem_foldl_addIfNew _ _ x).mpr (Or.inl (hin x hx))⟩
    · have hc2 : c = path.drop (path.indexOf nodeId) ++ [nodeId] := by
        simpa using hnew
      subst hc2
      exact ⟨cycle_closed_walk g nodeId path hmem hchain hlast,
        fun x hx => (mem_foldl_addIfNew _ _ x).mpr (Or.inr hx)⟩
  · intro x hx
    rcases (mem_foldl_addIfNew _ _ x).mp hx with hold | hnew
    · obtain ⟨c, hc, hxc⟩ := hgood.2 x hold
      exact ⟨c, List.mem_append_left _ hc, hxc⟩
    · exact ⟨_, List.mem_append_right _ (List.mem_singleton_self _), hnew⟩

theorem dfs_inv (g : List (String × List String)) : ∀ fuel : Nat,
    (∀ nodeId path st st2, dfs g fuel nodeId path st = some st2 →
      st.visiting = path → List.Chain' (graphEdge g) path →
      (∀ l, path.getLast? = some l → graphEdge g l nodeId) →
      GoodSt g st → GoodSt g st2 ∧ st2.visiting = path) ∧
    (∀ ns path st st2, dfsList g fuel ns path st = some st2 →
      st.visiting = path → List.Chain' (graphEdge g) path →
      (∀ n ∈ ns, ∀ l, path.getLast? = some l → graphEdge g l n) →
      GoodSt g st → GoodSt g st2 ∧ st2.visiting = path) := by
  intro fuel
  induction fuel with
  | zero =>
    constructor
    · intro nodeId path st st2 h
      rw [dfs] at h
      cases h
    · intro ns path st st2 h hvis hchain hedge hgood
      cases ns with
      | nil =>
        rw [dfsList] at h
        cases h
        exact ⟨hgood, hvis⟩
      | cons n rest =>
        rw [dfsList, dfs] at h
        cases h
  | succ fuel ih =>
    have hdfs : ∀ nodeId path st st2, dfs g (fuel + 1) nodeId path st = some st2 →
        st.visiting = path → List.Chain' (graphEdge g) path →
        (∀ l, path.getLast? = some l → graphEdge g l nodeId) →
        GoodSt g st → GoodSt g st2 ∧ st2.visiting = path := by
      intro nodeId path st st2 h hvis hchain hedge hgood
      rw [dfs_succ] at h
      by_cases h1 : nodeId ∈ st.visiting
      · rw [if_pos h1] at h
        cases h
        have hmem : nodeId ∈ path := hvis ▸ h1
        exact ⟨recordCycle_good g nodeId path st hmem hchain hedge hgood,
          (recordCycle_visiting _ _ _).trans hvis⟩
      · by_cases h2 : nodeId ∈ st.visited
        · rw [if_neg h1, if_pos h2] at h
          cases h
          exact ⟨hgood, hvis⟩
        · rw [if_neg h1, if_neg h2] at h
          cases hrun : dfsList g fuel ((mapGet g nodeId).getD [])
              (path ++ [nodeId])
              { st with visiting := st.visiting ++ [nodeId] } with
          | none => rw [hrun] at h; cases h
          | some stM =>
            rw [hrun] at h
            cases h
            have hnotpath : nodeId ∉ path := fun hp => h1 (hvis ▸ hp)
            have hchain2 : List.Chain' (graphEdge g) (path ++ [nodeId]) := by
              rw [List.chain'_append]
              refine ⟨hchain, List.chain'_singleton nodeId, ?_⟩
              intro x hx y hy
              have hy2 : nodeId = y := by simpa using hy
              subst hy2
              exact hedge x hx
            obtain ⟨hgoodM, hvisM⟩ := ih.2 ((mapGet g nodeId).getD [])
              (path ++ [nodeId]) _ stM hrun
              (by show st.visiting ++ [nodeId] = path ++ [nodeId]; rw [hvis])
              hchain2
              (by
                intro n hn l hl
                rw [List.getLast?_concat] at hl
                cases hl
                exact hn)
              hgood
            refine ⟨hgoodM, ?_⟩
            show stM.visiting.erase nodeId = path
            rw [hvisM, List.erase_append_right _ hnotpath]
            simp
    refine ⟨hdfs, ?_⟩
    intro ns
    induction ns with
    | nil =>
      intro path st st2 h hvis _ _ hgood
      rw [dfsList] at h
      cases h
      exact ⟨hgood, hvis⟩
    | cons n rest ihn =>
      intro path st st2 h hvis hchain hedge hgood
      rw [dfsList] at h
      cases hd : dfs g (fuel + 1) n path st with
      | none => rw [hd] at h; cases h
      | some stN =>
        rw [hd] at h
        obtain ⟨hgN, hvN⟩ := hdfs n path st stN hd hvis hchain
          (hedge n (List.mem_cons_self n rest)) hgood
        exact ihn path stN st2 h hvN hchain
          (fun m hm => hedge m (List.mem_cons_of_mem n hm)) hgN

theorem runRoots_inv (g : List (String × List String)) (fuel : Nat) :
    ∀ roots st st2, runRoots g fuel roots st = some st2 →
      st.visiting = [] → GoodSt g st → GoodSt g st2 ∧ st2.visiting = [] := by
  intro roots
  induction roots with
  | nil =>
    intro st st2 h hv hg
    rw [runRoots] at h
    cases h
    exact ⟨hg, hv⟩
  | cons r rest ih =>
    intro st st2 h hv hg
    rw [runRoots] at h
    by_cases hvd : r ∈ st.visited
    · rw [if_pos hvd] at h
      exact ih st st2 h hv hg
    · rw [if_neg hvd] at h
      cases hd : dfs g fuel r [] st with
      | none => rw [hd] at h; cases h
      | some stM =>
        rw [hd] at h
        obtain ⟨hgM, hvM⟩ := (dfs_inv g fuel).1 r [] st stM hd hv
          List.chain'_nil (fun l hl => by cases hl) hg
        exact ih stM st2 h hvM hgM

theorem taskEdge_mem_depsOfId : ∀ tasks : List ValidatedTask,
    (tasks.map (fun t => t.id)).Nodup → ∀ u v, taskEdge tasks u v →
      v ∈ depsOfId tasks u := by
  intro tasks
  induction tasks with
  | nil =>
    intro _ u v h
    obtain ⟨t, ht, _⟩ := h
    exact absurd ht (List.not_mem_nil t)
  | cons t0 rest ih =>
    intro hids u v h
    obtain ⟨t, ht, hid, hv⟩ := h
    rw [List.map_cons, List.nodup_cons] at hids
    unfold depsOfId
    by_cases h0 : t0.id = u
    · rw [List.find?_cons_of_pos _ (by simp [h0])]
      show v ∈ t0.dependencies
      rcases List.mem_cons.mp ht with rfl | hrest
      · exact hv
      · exfalso
        have hmem : u ∈ rest.map (fun t2 => t2.id) :=
          hid ▸ List.mem_map_of_mem _ hrest
        exact hids.1 (by rw [h0]; exact hmem)
    · rw [List.find?_cons_of_neg _ (by simp [h0])]
      have hrest : taskEdge rest u v := by
        rcases List.mem_cons.mp ht with rfl | hr
        · exact absurd hid h0
        · exact ⟨t, hr, hid, hv⟩
      exact ih hids.2 u v hrest

/-- C3: `detectCycles` is total: for every task list it returns a report
(the fuel never runs out), and on an acyclic dependency graph the report
has `hasCycle = false` and empty `cycles` and `errorTaskIds`. -/
theorem C3_detectCycles_total (tasks : List ValidatedTask) :
    ∃ r, detectCycles tasks = some r ∧
      (Acyclic tasks →
        r.hasCycle = false ∧ r.cycles = [] ∧ r.errorTaskIds = []) := by
  obtain ⟨st, hrun, hvis⟩ := runRoots_total (buildGraph tasks)
    ((universeIds (buildGraph tasks)).length + 1)
    (by
      have := List.toFinset_card_le (universeIds (buildGraph tasks))
      omega)
    ((buildGraph tasks).map (fun p => p.1)) ⟨[], [], [], []⟩
    (fun r hr => keys_subset_universe _ r hr) rfl
  have hres : detectCycles tasks =
      some { hasCycle := !st.cycles.isEmpty, cycles := st.cycles,
             errorTaskIds := st.errorIds } := by
    unfold detectCycles
    rw [hrun]
  refine ⟨_, hres, ?_⟩
  intro hacyc
  obtain ⟨hgood, _⟩ := runRoots_inv (buildGraph tasks) _ _ _ st hrun rfl
    ⟨fun c hc => absurd hc (List.not_mem_nil c),
     fun x hx => absurd hx (List.not_mem_nil x)⟩
  have hcyc : st.cycles = [] := by
    rw [List.eq_nil_iff_forall_not_mem]
    intro c hc
    obtain ⟨hcw, _⟩ := hgood.1 c hc
    exact hacyc ⟨c, hcw.1, hcw.2.1,
      hcw.2.2.imp (fun a b hab => (buildGraph_edge tasks a b).mp hab)⟩
  have herr : st.errorIds = [] := by
    rw [List.eq_nil_iff_forall_not_mem]
    intro x hx
    obtain ⟨c, hc, _⟩ := hgood.2 x hx
    rw [hcyc] at hc
    exact absurd hc (List.not_mem_nil c)
  exact ⟨by simp [hcyc], hcyc, herr⟩

/-- Witness for C3 at the empty task list, whose graph is acyclic. -/
theorem C3_detectCycles_total_witness :
    ∃ r, detectCycles ([] : List ValidatedTask) = some r ∧
      r.hasCycle = false ∧ r.cycles = [] ∧ r.errorTaskIds = [] := by
  obtain ⟨r, hr, himp⟩ := C3_detectCycles_total []
  have hacyc : Acyclic ([] : List ValidatedTask) := by
    rintro ⟨c, hlen, hcl, hchain⟩
    rcases c with _ | ⟨a, _ | ⟨b, rest⟩⟩
    · simp at hlen
    · simp at hlen
    · obtain ⟨t, ht, _⟩ := (List.chain'_cons.mp hchain).1
      exact absurd ht (List.not_mem_nil t)
  obtain ⟨h1, h2, h3⟩ := himp hacyc
  exact ⟨r, hr, h1, h2, h3⟩

/-- C2: every sequence recorded in `cycles` is a closed walk of the
dependency graph (first = last, each consecutive pair an edge into the
dependencies of the task with that id), and all its ids are in
`errorTaskIds`. -/
theorem C2_cycle_soundness (tasks : List ValidatedTask)
    (r : CycleDetectionResult) (hr : detectCycles tasks = some r)
    (hids : (tasks.map (fun t => t.id)).Nodup) :
    ∀ c ∈ r.cycles, (2 ≤ c.length ∧ c.head? = c.getLast? ∧
      List.Chain' (fun u v => v ∈ depsOfId tasks u) c) ∧
      ∀ x ∈ c, x ∈ r.errorTaskIds := by
  unfold detectCycles at hr
  cases hrun : runRoots (buildGraph tasks)
      ((universeIds (buildGraph tasks)).length + 1)
      ((buildGraph tasks).map (fun p => p.1)) ⟨[], [], [], []⟩ with
  | none => rw [hrun] at hr; cases hr
  | some st =>
    rw [hrun] at hr
    cases hr
    obtain ⟨hgood, _⟩ := runRoots_inv (buildGraph tasks) _ _ _ st hrun rfl
      ⟨fun c hc => absurd hc (List.not_mem_nil c),
       fun x hx => absurd hx (List.not_mem_nil x)⟩
    intro c hc
    obtain ⟨hcw, herr⟩ := hgood.1 c hc
    refine ⟨⟨hcw.1, hcw.2.1, ?_⟩, herr⟩
    exact hcw.2.2.imp (fun a b hab =>
      taskEdge_mem_depsOfId tasks hids a b
        ((buildGraph_edge tasks a b).mp hab))

/-- Witness for C2 on the two-cycle x ↔ y: the recorded cycle
[x, y, x] is a closed walk and its ids are in errorTaskIds. -/
theorem C2_cycle_soundness_witness :
    (2 ≤ (["x", "y", "x"] : List String).length ∧
      (["x", "y", "x"] : List String).head? =
        (["x", "y", "x"] : List String).getLast? ∧
      List.Chain' (fun u v => v ∈ depsOfId
        [{ id := "x", description := "dx", priority := Priority.low,
           dependencies := ["y"], status := Status.pending },
         { id := "y", description := "dy", priority := Priority.low,
           dependencies := ["x"], status := Status.pending }] u)
        ["x", "y", "x"]) ∧
    ∀ x ∈ (["x", "y", "x"] : List String),
      x ∈ CycleDetectionResult.errorTaskIds
        ⟨true, [["x", "y", "x"]], ["x", "y"]⟩ :=
  C2_cycle_soundness
    [{ id := "x", description := "dx", priority := Priority.low,
       dependencies := ["y"], status := Status.pending },
     { id := "y", description := "dy", priority := Priority.low,
       dependencies := ["x"], status := Status.pending }]
    ⟨true, [["x", "y", "x"]], ["x", "y"]⟩ (by decide) (by decide)
    ["x", "y", "x"] (by decide)

/-! Status resolution (claim C4). -/

theorem validateTasks_ok_shape (raw : List JsonVal)
    (ts : List ValidatedTask) (n : Nat)
    (h : validateTasks raw = Except.ok (ts, n)) :
    ts = (secondPass (firstPass raw [] [] []).2.1 (firstPass raw [] [] []).1).1 := by
  unfold validateTasks at h
  simp only at h
  split at h
  · have := congrArg (fun e =>
      match e with
      | Except.ok (p : List ValidatedTask × Nat) => p.1
      | Except.error _ => []) h
    simpa using this.symm
  · exact absurd h (by simp)

theorem validateTasks_status (raw : List JsonVal) (ts : List ValidatedTask)
    (n : Nat) (h : validateTasks raw = Except.ok (ts, n)) :
    ∀ t ∈ ts, t.status = Status.pending := by
  intro t ht
  rw [validateTasks_ok_shape raw ts n h, secondPass_fst] at ht
  rcases List.mem_map.mp ht with ⟨t0, ht0, rfl⟩
  show t0.status = Status.pending
  rcases firstPass_status raw [] [] [] t0 ht0 with hv | hp
  · exact absurd hv (List.not_mem_nil t0)
  · exact hp

theorem markCyclic_ids (ts : List ValidatedTask) (cd : CycleDetectionResult) :
    (markCyclicTasksAsError ts cd).map (fun t => t.id) =
      ts.map (fun t => t.id) := by
  unfold markCyclicTasksAsError
  rw [List.map_map]
  rfl

/-- C4: in the orchestrator's final task output, a task in `errorTaskIds`
is `error` (overriding everything), otherwise an empty dependency list
gives `ready`, otherwise dependencies all inside the id set give
`blocked`, otherwise `ready`; consequently no `ready` task has its id in
`errorTaskIds`. -/
theorem C4_status_rules (raw : List JsonVal) (ts : List ValidatedTask)
    (n : Nat) (cd : CycleDetectionResult)
    (hok : validateTasks raw = Except.ok (ts, n))
    (_hcd : detectCycles ts = some cd) :
    finalizeTasks ts cd = ts.map (fun t =>
      { t with status :=
          if t.id ∈ cd.errorTaskIds then Status.error
          else if t.dependencies = [] then Status.ready
          else if t.dependencies.all (fun d => d ∈ ts.map (fun t2 => t2.id)) then Status.blocked
          else Status.ready }) ∧
    ∀ f ∈ finalizeTasks ts cd, f.status = Status.ready →
      f.id ∉ cd.errorTaskIds := by
  have hpend := validateTasks_status raw ts n hok
  have hmain : finalizeTasks ts cd = ts.map (fun t =>
      { t with status :=
          if t.id ∈ cd.errorTaskIds then Status.error
          else if t.dependencies = [] then Status.ready
          else if t.dependencies.all (fun d => d ∈ ts.map (fun t2 => t2.id)) then Status.blocked
          else Status.ready }) := by
    unfold finalizeTasks
    rw [markCyclic_ids]
    unfold markCyclicTasksAsError
    rw [List.map_map]
    apply List.map_congr_left
    intro t ht
    have hp := hpend t ht
    simp only [Function.comp_apply]
    by_cases hin : t.id ∈ cd.errorTaskIds
    · simp [hin, hp]
    · by_cases hdep : t.dependencies = []
      · simp [hin, hp, determineTaskStatus, hdep]
      · simp [hin, hp, determineTaskStatus, hdep, List.length_eq_zero]
  refine ⟨hmain, ?_⟩
  intro f hf hready hinf
  rw [hmain] at hf
  rcases List.mem_map.mp hf with ⟨t, ht, heq⟩
  subst heq
  have hin2 : t.id ∈ cd.errorTaskIds := hinf
  simp [hin2] at hready

/-- Witness for C4 on the cyclic pair x ↔ y: both tasks resolve to
error, matching the rule map. -/
theorem C4_status_rules_witness :
    finalizeTasks
      [{ id := "x", description := "dx", priority := Priority.low,
         dependencies := ["y"], status := Status.pending },
       { id := "y", description := "dy", priority := Priority.low,
         dependencies := ["x"], status := Status.pending }]
      ⟨true, [["x", "y", "x"]], ["x", "y"]⟩ =
    [{ id := "x", description := "dx", priority := Priority.low,
       dependencies := ["y"], status := Status.error },
     { id := "y", description := "dy", priority := Priority.low,
       dependencies := ["x"], status := Status.error }] := by
  rw [(C4_status_rules
    [JsonVal.obj [("id", JsonVal.str "x"), ("description", JsonVal.str "dx"),
       ("priority", JsonVal.str "low"),
       ("dependencies", JsonVal.arr [JsonVal.str "y"])],
     JsonVal.obj [("id", JsonVal.str "y"), ("description", JsonVal.str "dy"),
       ("priority", JsonVal.str "low"),
       ("dependencies", JsonVal.arr [JsonVal.str "x"])]]
    [{ id := "x", description := "dx", priority := Priority.low,
       dependencies := ["y"], status := Status.pending },
     { id := "y", description := "dy", priority := Priority.low,
       dependencies := ["x"], status := Status.pending }]
    0 ⟨true, [["x", "y", "x"]], ["x", "y"]⟩ (by decide) (by decide)).1]
  decide

/-! Orchestrator error handling (claims C5, C7). -/

/-- C5 counterexample: when the LLM call fails and the `failJob` write in
the catch block also fails, the returned promise rejects and the job
stays in `processing` — the claim "never rejects" is false on the code. -/
theorem C5_counterexample :
    processTranscript
      ⟨Except.error "llm down", Except.ok (), Except.ok (),
        Except.error "db down"⟩ freshJob =
      (Except.error "db down", freshJob) := by decide

/-- C5 amended: provided the `failJob` write itself succeeds, the promise
never rejects and the job ends `done` or `error` (with a message), never
remaining `processing`. -/
theorem C5_no_unhandled_rejection (w : World) (job : JobRec)
    (hfail : w.failJobResult = Except.ok ()) :
    (processTranscript w job).1 = Except.ok () ∧
    ((processTranscript w job).2.status = JobStatus.done ∨
      ((processTranscript w job).2.status = JobStatus.error ∧
        ∃ msg, (processTranscript w job).2.errorMessage = some msg)) := by
  unfold processTranscript
  cases hty : tryPipeline w with
  | error e => simp [hty, hfail]
  | ok result =>
    cases hsv : w.saveTasksResult with
    | error e => simp [hty, hsv, hfail]
    | ok u =>
      cases hcj : w.completeJobResult with
      | error e => simp [hty, hsv, hcj, hfail]
      | ok u2 => simp [hty, hsv, hcj]

/-- Witness for the amended C5: LLM failure with a working failJob ends
in a non-rejecting promise and an error status. -/
theorem C5_no_unhandled_rejection_witness :
    (processTranscript
        ⟨Except.error "llm down", Except.ok (), Except.ok (), Except.ok ()⟩
        freshJob).1 = Except.ok () ∧
    ((processTranscript
          ⟨Except.error "llm down", Except.ok (), Except.ok (), Except.ok ()⟩
          freshJob).2.status = JobStatus.done ∨
      ((processTranscript
            ⟨Except.error "llm down", Except.ok (), Except.ok (), Except.ok ()⟩
            freshJob).2.status = JobStatus.error ∧
        ∃ msg, (processTranscript
            ⟨Except.error "llm down", Except.ok (), Except.ok (), Except.ok ()⟩
            freshJob).2.errorMessage = some msg)) :=
  C5_no_unhandled_rejection
    ⟨Except.error "llm down", Except.ok (), Except.ok (), Except.ok ()⟩
    freshJob rfl

/-- C7: an empty sanitized task sequence makes the job end in `error`
with the no-valid-tasks message and no result attached. -/
theorem C7_empty_tasks_error (w : World) (raw : List JsonVal) (n : Nat)
    (hllm : w.llmResult = Except.ok raw)
    (hval : validateTasks raw = Except.ok ([], n))
    (hfail : w.failJobResult = Except.ok ()) :
    processTranscript w freshJob =
      (Except.ok (),
        { status := JobStatus.error, result := none,
          errorMessage := some "No valid tasks extracted from transcript" }) := by
  have hty : tryPipeline w =
      Except.error "No valid tasks extracted from transcript" := by
    unfold tryPipeline
    rw [hllm]
    simp [hval]
  unfold processTranscript
  rw [hty]
  simp [hfail, freshJob]

/-- Witness for C7: a model call returning the empty array. -/
theorem C7_empty_tasks_error_witness :
    processTranscript
      ⟨Except.ok [], Except.ok (), Except.ok (), Except.ok ()⟩ freshJob =
      (Except.ok (),
        { status := JobStatus.error, result := none,
          errorMessage := some "No valid tasks extracted from transcript" }) :=
  C7_empty_tasks_error
    ⟨Except.ok [], Except.ok (), Except.ok (), Except.ok ()⟩ [] 0
    rfl (by decide) rfl

/-! Submit route (claims C6, C9). -/

/-- C6: submitting the same trimmed transcript twice returns the same
jobId both times, triggers exactly one model call, and stores nothing on
the second call. -/
theorem C6_idempotent_submission (H : String → String)
    (store : List (String × String)) (t1 t2 fresh1 fresh2 : String)
    (htrim : strTrim t1 = strTrim t2) (hne : strTrim t1 ≠ "")
    (hmiss : ∀ p ∈ store, p.1 ≠ H (strTrim t1)) :
    (submitStore H store fresh1 t1).1.response =
      SubmitResponse.accepted fresh1 ∧
    (submitStore H (submitStore H store fresh1 t1).2 fresh2 t2).1.response =
      SubmitResponse.alreadySubmitted fresh1 ∧
    (submitStore H store fresh1 t1).1.modelCalls +
      (submitStore H (submitStore H store fresh1 t1).2 fresh2 t2).1.modelCalls
      = 1 ∧
    (submitStore H (submitStore H store fresh1 t1).2 fresh2 t2).2 =
      (submitStore H store fresh1 t1).2 := by
  have hfind1 : store.find? (fun p => p.1 == H (strTrim t1)) = none :=
    List.find?_eq_none.mpr (fun p hp => by simpa using hmiss p hp)
  have h1 : submitStore H store fresh1 t1 =
      (⟨SubmitResponse.accepted fresh1, true, 1⟩,
        store ++ [(H (strTrim t1), fresh1)]) := by
    unfold submitStore submitCore
    simp [hfind1, hne]
  have hfind2 : (store ++ [(H (strTrim t1), fresh1)]).find?
      (fun p => p.1 == H (strTrim t2)) = some (H (strTrim t1), fresh1) := by
    rw [List.find?_append, List.find?_eq_none.mpr
      (fun p hp => by simpa [htrim] using hmiss p hp)]
    simp [htrim]
  have h2 : submitStore H (store ++ [(H (strTrim t1), fresh1)]) fresh2 t2 =
      (⟨SubmitResponse.alreadySubmitted fresh1, false, 0⟩,
        store ++ [(H (strTrim t1), fresh1)]) := by
    have hne2 : strTrim t2 ≠ "" := htrim ▸ hne
    unfold submitStore submitCore
    simp [hfind2, hne2]
  rw [h1]
  rw [h2]
  exact ⟨rfl, rfl, rfl, rfl⟩

/-- Witness for C6: two submissions whose transcripts trim to the same
text. -/
theorem C6_idempotent_submission_witness :
    (submitStore (fun s => s) [] "j1" " hello ").1.response =
      SubmitResponse.accepted "j1" ∧
    (submitStore (fun s => s) (submitStore (fun s => s) [] "j1" " hello ").2
        "j2" "hello").1.response = SubmitResponse.alreadySubmitted "j1" ∧
    (submitStore (fun s => s) [] "j1" " hello ").1.modelCalls +
      (submitStore (fun s => s) (submitStore (fun s => s) [] "j1" " hello ").2
        "j2" "hello").1.modelCalls = 1 ∧
    (submitStore (fun s => s) (submitStore (fun s => s) [] "j1" " hello ").2
        "j2" "hello").2 = (submitStore (fun s => s) [] "j1" " hello ").2 :=
  C6_idempotent_submission (fun s => s) [] " hello " "hello" "j1" "j2"
    (by decide) (by decide) (by decide)

/-- C9 counterexample: with the pre-insert lookup missing and createJob
rejecting with the uniqueness violation, the route answers with a 500
hard failure, not with the existing job association. -/
theorem C9_counterexample :
    submitCore "meeting notes" none
      (Except.error "E11000 duplicate key error") "j-new" =
      ⟨SubmitResponse.serverError, false, 0⟩ := by decide

/-- C9 amended: a uniqueness-constraint violation during createJob is
surfaced as an internal-server-error hard failure with no processing
started; the already-submitted response arises only from the pre-insert
lookup finding the job. -/
theorem C9_constraint_violation_hard_failure (t e fresh : String)
    (hne : strTrim t ≠ "") :
    submitCore t none (Except.error e) fresh =
      ⟨SubmitResponse.serverError, false, 0⟩ ∧
    ∀ j, submitCore t (some j) (Except.error e) fresh =
      ⟨SubmitResponse.alreadySubmitted j, false, 0⟩ := by
  constructor
  · unfold submitCore
    rw [if_neg hne]
  · intro j
    unfold submitCore
    rw [if_neg hne]

/-- Witness for the amended C9. -/
theorem C9_constraint_violation_hard_failure_witness :
    submitCore "meeting notes" none
      (Except.error "E11000 duplicate key error") "j-new" =
      ⟨SubmitResponse.serverError, false, 0⟩ ∧
    ∀ j, submitCore "meeting notes" (some j)
      (Except.error "E11000 duplicate key error") "j-new" =
      ⟨SubmitResponse.alreadySubmitted j, false, 0⟩ :=
  C9_constraint_violation_hard_failure "meeting notes"
    "E11000 duplicate key error" "j-new" (by decide)

/-! Task-completion endpoint (claim C8). -/

/-- C8 counterexample: the PATCH completion endpoint rewrites a stored
task whose status is "error" to status "ready" — task statuses are not
write-once after the Status Resolver. -/
theorem C8_counterexample :
    setTaskCompletion (some ⟨some [⟨"a", "error", none⟩]⟩) "a" false =
      (some [⟨"a", "ready", some false⟩],
        some ⟨some [⟨"a", "ready", some false⟩]⟩) := by decide

theorem updateFirstTask_append (taskId : String) (completed : Bool)
    (t : StoredTask) (post : List StoredTask) :
    ∀ pre : List StoredTask, (∀ t2 ∈ pre, t2.id ≠ taskId) → t.id = taskId →
      updateFirstTask (pre ++ t :: post) taskId completed =
        pre ++ { t with
          completed := some completed
          status := if completed then "completed" else "ready" } :: post := by
  intro pre
  induction pre with
  | nil =>
    intro _ hid
    simp only [List.nil_append]
    unfold updateFirstTask
    rw [if_pos (by simp [hid])]
  | cons p rest ih =>
    intro hpre hid
    show updateFirstTask (p :: (rest ++ t :: post)) taskId completed = _
    unfold updateFirstTask
    rw [if_neg (by simp [hpre p (List.mem_cons_self p rest)]),
      ih (fun t2 h2 => hpre t2 (List.mem_cons_of_mem p h2)) hid]
    rfl

/-- C8 amended: statuses set by the pipeline are final within the
pipeline, but the PATCH completion endpoint later rewrites the matched
task's status to "completed" or "ready" regardless of its previous value
(error included), leaving the other tasks unchanged. -/
theorem C8_completion_rewrites_status (pre post : List StoredTask)
    (t : StoredTask) (taskId : String) (completed : Bool)
    (hpre : ∀ t2 ∈ pre, t2.id ≠ taskId) (hid : t.id = taskId) :
    setTaskCompletion (some ⟨some (pre ++ t :: post)⟩) taskId completed =
      (some (pre ++ { t with
          completed := some completed
          status := if completed then "completed" else "ready" } :: post),
       some ⟨some (pre ++ { t with
          completed := some completed
          status := if completed then "completed" else "ready" } :: post)⟩) := by
  have hfind : (pre ++ t :: post).find? (fun x => x.id == taskId) = some t := by
    rw [List.find?_append, List.find?_eq_none.mpr
      (fun p hp => by simpa using hpre p hp)]
    simp [List.find?_cons_of_pos, hid]
  show (match (pre ++ t :: post).find? (fun x => x.id == taskId) with
    | none => ((none : Option (List StoredTask)),
        some (⟨some (pre ++ t :: post)⟩ : StoredJob))
    | some _ =>
      (some (updateFirstTask (pre ++ t :: post) taskId completed),
        some ⟨some (updateFirstTask (pre ++ t :: post) taskId completed)⟩)) = _
  rw [hfind, updateFirstTask_append taskId completed t post pre hpre hid]

/-- Witness for the amended C8: rewriting an error task to ready. -/
theorem C8_completion_rewrites_status_witness :
    setTaskCompletion (some ⟨some ([] ++ (⟨"a", "error", none⟩ : StoredTask)
        :: [])⟩) "a" false =
      (some ([] ++ ({ (⟨"a", "error", none⟩ : StoredTask) with
          completed := some false
          status := if false then "completed" else "ready" } : StoredTask)
          :: []),
       some ⟨some ([] ++ ({ (⟨"a", "error", none⟩ : StoredTask) with
          completed := some false
          status := if false then "completed" else "ready" } : StoredTask)
          :: [])⟩) :=
  C8_completion_rewrites_status [] [] ⟨"a", "error", none⟩ "a" false
    (fun t2 h2 => absurd h2 (List.not_mem_nil t2)) rfl

end InsightBoard
